import Mathlib

/-!
Verification of the design-system extraction engine.

The definitions below are a shallow embedding of the static analysis path
of the repository (src/lib/analyzer.ts, with the result types from the
types module and the usage categorizer of src/lib/visual-analyzer.ts).
JavaScript strings are modelled as Lean strings, regular-expression
scanning is modelled by explicit character-list scanners that follow the
engine semantics of the concrete patterns used by the source (leftmost
match, first-alternative preference, greedy and lazy quantifiers as they
behave on these specific patterns), and the network / browser effects of
analyzeWebsite are modelled by an explicit event environment.
-/

/-! ## Character classes used by the source's regular expressions -/

/-- Double-quote character, written by code point to keep sources plain. -/
def dquote : Char := Char.ofNat 34

/-- Single-quote character, written by code point to keep sources plain. -/
def squote : Char := Char.ofNat 39

/-- The class [0-9a-fA-F] of the color-scanning pattern in extractColors
(src/lib/analyzer.ts line 155), by code points. -/
def isHexDigit (c : Char) : Bool :=
  (48 ≤ c.toNat && c.toNat ≤ 57) ||
  (97 ≤ c.toNat && c.toNat ≤ 102) ||
  (65 ≤ c.toNat && c.toNat ≤ 70)

/-- The class [0-9A-F] of the canonical-hex property of the data model,
by code points. -/
def isUpperHexDigit (c : Char) : Bool :=
  (48 ≤ c.toNat && c.toNat ≤ 57) || (65 ≤ c.toNat && c.toNat ≤ 70)

/-- The digit class of the patterns (ASCII digits). -/
def isAsciiDigit (c : Char) : Bool := 48 ≤ c.toNat && c.toNat ≤ 57

/-- The whitespace class of the patterns (the common members). -/
def isJsSpace (c : Char) : Bool :=
  c = ' ' || c = '\t' || c = '\n' || c = '\r' ||
  c = Char.ofNat 11 || c = Char.ofNat 12 || c = Char.ofNat 160 || c = Char.ofNat 65279

/-! ## Data model (the types module of the repository) -/

/-- The usage union of the Color interface. -/
inductive Usage where
  | primary | secondary | accent | neutral | background
deriving DecidableEq, Repr, Inhabited

/-- The Color interface: hex plus usage (the optional name field is never
set by the analyzer and is carried as an Option). -/
structure Color where
  hex : String
  usage : Usage
  name : Option String := none
deriving DecidableEq, Repr, Inhabited

/-- The usage union of the Typography interface. -/
inductive TypoUsage where
  | heading | body | caption
deriving DecidableEq, Repr, Inhabited

/-- The Typography interface (letterSpacing is never set by the analyzer). -/
structure Typography where
  fontFamily : String
  fontWeight : Nat
  fontSize : String
  lineHeight : String
  usage : TypoUsage
deriving DecidableEq, Repr, Inhabited

/-- The layout type union of the WebsiteAnalysis interface. -/
inductive LayoutType where
  | singleColumn | multiColumn | grid
deriving DecidableEq, Repr, Inhabited

/-- The layout field of WebsiteAnalysis. -/
structure Layout where
  type : LayoutType
  sections : List String
deriving DecidableEq, Repr, Inhabited

/-- The DesignSystem interface; the three scale maps are association
lists and components is always empty in the static path. -/
structure DesignSystem where
  colors : List Color
  typography : List Typography
  components : List String
  spacing : List (String × String)
  borderRadii : List (String × String)
  breakpoints : List (String × String)
deriving DecidableEq, Repr, Inhabited

/-- The WebsiteAnalysis result record. -/
structure WebsiteAnalysis where
  url : String
  title : String
  screenshot : Option String
  designSystem : DesignSystem
  layout : Layout
  extractedAt : String
deriving DecidableEq, Repr, Inhabited

/-! ## The color scanner

The global pattern of extractColors (src/lib/analyzer.ts line 155) is
HASH(?:[0-9a-fA-F]x3)x1or2 | rgba?( d+ , s* d+ , s* d+   with flags g i.
Matching at one position is deterministic (no productive backtracking in
either alternative), the first alternative is preferred, and the global
loop resumes after each match and advances one character on failure. -/

/-- First alternative at a position: a hash sign followed by six, or
failing that three, hex digits (the greedy one-or-two repetition of a
three-hex-digit group). Returns the matched text and the rest. -/
def matchHexAt (cs : List Char) : Option (List Char × List Char) :=
  match cs with
  | c :: rest =>
    if c = '#' then
      if (rest.take 6).length = 6 && (rest.take 6).all isHexDigit then
        some (c :: rest.take 6, rest.drop 6)
      else if (rest.take 3).length = 3 && (rest.take 3).all isHexDigit then
        some (c :: rest.take 3, rest.drop 3)
      else none
    else none
  | [] => none

/-- The tail of the second alternative after the letters: an opening
paren and a comma-separated digit triple with optional whitespace after
each comma. Returns the consumed text and the rest. -/
def matchRgbTail (cs : List Char) : Option (List Char × List Char) :=
  match cs with
  | c4 :: r3 =>
    if c4 = '(' then
      let d1 := r3.takeWhile isAsciiDigit
      let r4 := r3.dropWhile isAsciiDigit
      if d1.isEmpty then none else
      match r4 with
      | c5 :: r5 =>
        if c5 = ',' then
          let w1 := r5.takeWhile isJsSpace
          let r6 := r5.dropWhile isJsSpace
          let d2 := r6.takeWhile isAsciiDigit
          let r7 := r6.dropWhile isAsciiDigit
          if d2.isEmpty then none else
          match r7 with
          | c6 :: r8 =>
            if c6 = ',' then
              let w2 := r8.takeWhile isJsSpace
              let r9 := r8.dropWhile isJsSpace
              let d3 := r9.takeWhile isAsciiDigit
              let r10 := r9.dropWhile isAsciiDigit
              if d3.isEmpty then none else
              some (c4 :: (d1 ++ c5 :: (w1 ++ d2 ++ c6 :: (w2 ++ d3))), r10)
            else none
          | [] => none
        else none
      | [] => none
    else none
  | [] => none

/-- Second alternative at a position: the letters rgb, an optional a
(all case-insensitive) and the paren-and-triple tail. -/
def matchRgbAt (cs : List Char) : Option (List Char × List Char) :=
  match cs with
  | r :: g :: b :: rest =>
    if r.toLower = 'r' && g.toLower = 'g' && b.toLower = 'b' then
      match rest with
      | a :: rest' =>
        if a.toLower = 'a' then
          (matchRgbTail rest').map (fun p => (r :: g :: b :: a :: p.1, p.2))
        else
          (matchRgbTail (a :: rest')).map (fun p => (r :: g :: b :: p.1, p.2))
      | [] => (matchRgbTail []).map (fun p => (r :: g :: b :: p.1, p.2))
    else none
  | _ => none

/-- One attempt of the alternation at a position (first alternative wins). -/
def matchColorAt (cs : List Char) : Option (List Char × List Char) :=
  match matchHexAt cs with
  | some r => some r
  | none => matchRgbAt cs

/-- The global exec loop: collect successive matches, advancing one
character when no match starts at the current position. The fuel equals
the remaining length, which suffices because every step consumes at
least one character. -/
def scanColorsAux : Nat → List Char → List String
  | 0, _ => []
  | _, [] => []
  | fuel + 1, c :: cs =>
    match matchColorAt (c :: cs) with
    | some (m, rest) => String.mk m :: scanColorsAux fuel rest
    | none => scanColorsAux fuel cs

/-- All matches of the color pattern over the markup, in order. -/
def scanColors (cs : List Char) : List String :=
  scanColorsAux cs.length cs

/-! ## Color normalization (normalizeColor, src/lib/analyzer.ts 288-310) -/

/-- The inner pattern rgb( d+ , s* d+ , s* d+  of normalizeColor (case
sensitive, no optional a), attempted at one position; returns the three
captured digit runs. -/
def innerRgbAt (cs : List Char) : Option (List Char × List Char × List Char) :=
  match cs with
  | c1 :: c2 :: c3 :: c4 :: r1 =>
    if c1 = 'r' && c2 = 'g' && c3 = 'b' && c4 = '(' then
      let d1 := r1.takeWhile isAsciiDigit
      let r2 := r1.dropWhile isAsciiDigit
      if d1.isEmpty then none else
      match r2 with
      | c5 :: r3 =>
        if c5 = ',' then
          let r4 := r3.dropWhile isJsSpace
          let d2 := r4.takeWhile isAsciiDigit
          let r5 := r4.dropWhile isAsciiDigit
          if d2.isEmpty then none else
          match r5 with
          | c6 :: r6 =>
            if c6 = ',' then
              let r7 := r6.dropWhile isJsSpace
              let d3 := r7.takeWhile isAsciiDigit
              if d3.isEmpty then none else some (d1, d2, d3)
            else none
          | [] => none
        else none
      | [] => none
    else none
  | _ => none

/-- String.match with the inner rgb pattern: the leftmost position at
which it succeeds. -/
def innerRgbMatch (cs : List Char) : Option (List Char × List Char × List Char) :=
  cs.tails.findSome? innerRgbAt

/-- Numeric value of a digit run (the Number conversion of the source). -/
def natOfDigits (ds : List Char) : Nat :=
  ds.foldl (fun n c => n * 10 + (c.toNat - 48)) 0

/-- Number(v).toString(16).padStart(2, zero) of the source. -/
def hexByte (ds : List Char) : List Char :=
  let s := Nat.toDigits 16 (natOfDigits ds)
  if s.length < 2 then List.replicate (2 - s.length) '0' ++ s else s

/-- normalizeColor: three-digit hex is doubled and upper-cased, other
hash strings are upper-cased verbatim, and otherwise the inner rgb
pattern is searched and its triple converted to hex; null when nothing
applies (the empty string neither starts with a hash sign nor contains
the inner pattern). -/
def normalizeColor (color : String) : Option String :=
  match color.data with
  | c :: rest =>
    if c = '#' then
      if rest.length = 3 then
        some (String.mk (c :: ((rest.map fun x => [x, x]).flatten.map Char.toUpper)))
      else
        some (String.mk ((c :: rest).map Char.toUpper))
    else
      match innerRgbMatch (c :: rest) with
      | some (d1, d2, d3) =>
        some (String.mk (('#' :: (hexByte d1 ++ hexByte d2 ++ hexByte d3)).map Char.toUpper))
      | none => none
  | [] => none

/-- isValidColor (src/lib/analyzer.ts 312-314). -/
def isValidColor (hex : String) : Bool :=
  hex.length = 7 && hex ≠ "#000000" && hex ≠ "#FFFFFF"

/-! ## extractColors (src/lib/analyzer.ts 152-174) -/

/-- One step of filling the dedup set: add the normalized color at the
end when it is valid and not already present. -/
def addColor (acc : List String) (m : String) : List String :=
  match normalizeColor m with
  | some hex => if isValidColor hex && !(acc.contains hex) then acc ++ [hex] else acc
  | none => acc

/-- The deduplicated sequence of detected colors, in discovery order
(the contents of the Set of extractColors). -/
def extractColorSet (html : String) : List String :=
  (scanColors html.data).foldl addColor []

/-- The indexed map of the source (the second argument of Array.map). -/
def mapWithIndex (f : Nat → α → β) : Nat → List α → List β
  | _, [] => []
  | i, a :: as => f i a :: mapWithIndex f (i + 1) as

/-- The four-entry usage cycle of extractColors (src/lib/analyzer.ts 165). -/
def usageCycle4 : List Usage := [.primary, .secondary, .accent, .neutral]

/-- The five-entry usage cycle of categorizeColorUsage
(src/lib/visual-analyzer.ts 743-746). -/
def usageCycle5 : List Usage := [.primary, .secondary, .accent, .neutral, .background]

/-- categorizeColorUsage of the rendered path (src/lib/visual-analyzer.ts
743-746): round-robin over the five usages by index. -/
def categorizeColorUsage (_hex : String) (index : Nat) : Usage :=
  usageCycle5.getD (index % 5) .primary

/-- extractColors: scan, normalize, filter, dedup, truncate to ten, tag
with the four-entry usage cycle; the black-and-white pair when nothing
was detected. -/
def extractColors (html : String) : List Color :=
  let colors := mapWithIndex
    (fun i hex => { hex := hex, usage := usageCycle4.getD (i % 4) .primary }) 0
    ((extractColorSet html).take 10)
  if colors.length ≠ 0 then colors
  else [{ hex := "#000000", usage := .neutral }, { hex := "#FFFFFF", usage := .background }]

/-! ## Layout extraction (extractLayoutStructure, src/lib/analyzer.ts 266-277) -/

/-- String.prototype.includes, on character lists. -/
def includes (hay : String) (needle : String) : Bool :=
  hay.data.tails.any (fun t => needle.data.isPrefixOf t)

/-- The fixed tag list probed by extractLayoutStructure. -/
def regionTags : List String := ["header", "nav", "main", "section", "article", "footer"]

/-- Spread of a Set built from a list: first occurrences in order. -/
def dedupKeepFirst (l : List String) : List String :=
  l.foldl (fun acc s => if acc.contains s then acc else acc ++ [s]) []

/-- extractLayoutStructure: collect the region tags whose opening bracket
occurs in the markup; more than two means multi-column; the sections
default to the single entry main when none was found. -/
def extractLayoutStructure (html : String) : Layout :=
  let sections := regionTags.filter (fun tag => includes html ("<" ++ tag))
  { type := if sections.length > 2 then .multiColumn else .singleColumn,
    sections := if sections.length ≠ 0 then dedupKeepFirst sections else ["main"] }

/-! ## Typography extraction (extractTypography, src/lib/analyzer.ts 180-259) -/

/-- Case-insensitive literal prefix test (the i flag on a literal
pattern): the candidate characters are lower-cased before comparison. -/
def ciPrefix (pat : String) (cs : List Char) : Bool :=
  ((cs.take pat.data.length).map Char.toLower) == pat.data

/-- JavaScript String.prototype.trim on character lists. -/
def trimChars (cs : List Char) : List Char :=
  ((cs.dropWhile isJsSpace).reverse.dropWhile isJsSpace).reverse

/-- The test of the per-tag pattern  < tag [s>]  with the i flag
(RegExp.test in extractTypography): somewhere in the markup the opening
bracket and tag name occur, followed by whitespace or a closing bracket. -/
def tagTest (html : String) (tag : String) : Bool :=
  html.data.tails.any (fun t =>
    ciPrefix ("<" ++ tag) t &&
    (match t.drop (tag.length + 1) with
     | c :: _ => isJsSpace c || c = '>'
     | [] => false))

/-- One row of the headingLevels ladder. -/
structure HeadingLevel where
  tag : String
  size : String
  weight : Nat
deriving DecidableEq, Repr

/-- The headingLevels ladder of extractTypography. -/
def headingLevels : List HeadingLevel :=
  [{ tag := "h1", size := "2.25rem", weight := 700 },
   { tag := "h2", size := "1.875rem", weight := 600 },
   { tag := "h3", size := "1.5rem", weight := 600 },
   { tag := "h4", size := "1.25rem", weight := 600 }]

/-- The capture of  font-family s* : s* ([^;]+)  attempted at one
position. The final quantifier pair backtracks: when every character
after the colon and its whitespace run is exhausted or a semicolon, the
star gives one whitespace character back to the plus. -/
def fontFamilyCapture (cs : List Char) : Option (List Char) :=
  if ciPrefix "font-family" cs then
    match (cs.drop 11).dropWhile isJsSpace with
    | c0 :: r2 =>
      if c0 = ':' then
        let w := r2.takeWhile isJsSpace
        let rest := r2.dropWhile isJsSpace
        match rest with
        | c :: _ =>
          if c = ';' then (match w.reverse with | lw :: _ => some [lw] | [] => none)
          else some (rest.takeWhile (· ≠ ';'))
        | [] => match w.reverse with | lw :: _ => some [lw] | [] => none
      else none
    | [] => none
  else none

/-- The font-family detection of extractTypography (lines 186-193):
first match of the pattern, quotes removed, first comma segment,
trimmed; system-ui when there is no match. -/
def detectFontFamily (html : String) : String :=
  match html.data.tails.findSome? fontFamilyCapture with
  | some cap =>
    String.mk (trimChars ((cap.filter (fun c => c ≠ squote && c ≠ dquote)).takeWhile (· ≠ ',')))
  | none => "system-ui"

/-- The guaranteed fallback entry of extractTypography (lines 248-256). -/
def fallbackTypography : Typography :=
  { fontFamily := "system-ui", fontWeight := 400, fontSize := "1rem",
    lineHeight := "1.5", usage := .body }

/-- extractTypography: a heading entry for the first present heading
level, a body entry when a paragraph or div opens, a caption entry when
a button, anchor or label opens, and the guaranteed fallback when all
three are absent. -/
def extractTypography (html : String) : List Typography :=
  let fontFamily := detectFontFamily html
  let t1 : List Typography :=
    match headingLevels.find? (fun l => tagTest html l.tag) with
    | some l => [{ fontFamily := fontFamily, fontWeight := l.weight, fontSize := l.size,
                   lineHeight := "1.2", usage := .heading }]
    | none => []
  let t2 : List Typography :=
    if tagTest html "p" || tagTest html "div" then
      [{ fontFamily := fontFamily, fontWeight := 400, fontSize := "1rem",
         lineHeight := "1.5", usage := .body }]
    else []
  let t3 : List Typography :=
    if tagTest html "button" || tagTest html "a" || tagTest html "label" then
      [{ fontFamily := fontFamily, fontWeight := 500, fontSize := "0.875rem",
         lineHeight := "1.4", usage := .caption }]
    else []
  let typography := t1 ++ t2 ++ t3
  if typography.length = 0 then [fallbackTypography] else typography

/-! ## Page title (extractPageTitle, src/lib/analyzer.ts 283-286) -/

/-- The greedy bracket-free run followed by the closing bracket: drop to
the first closing bracket and step over it. -/
def dropToGt (cs : List Char) : Option (List Char) :=
  match cs.dropWhile (· ≠ '>') with
  | c :: rest => if c = '>' then some rest else none
  | [] => none

/-- The lazy capture up to the closing title tag: the shortest run of
line characters after which the closing tag follows (the dot excludes
line terminators). -/
def lazyTitleCapture : List Char → Option (List Char)
  | [] => none
  | c :: rest =>
    if ciPrefix "</title>" (c :: rest) then some []
    else if c = '\n' || c = '\r' then none
    else (lazyTitleCapture rest).map (c :: ·)

/-- One attempt of the title pattern at a position. -/
def matchTitleAt (cs : List Char) : Option (List Char) :=
  if ciPrefix "<title" cs then
    match dropToGt (cs.drop 6) with
    | some body => lazyTitleCapture body
    | none => none
  else none

/-- extractPageTitle: first match of the title pattern, capture trimmed;
null when the pattern never matches. -/
def extractPageTitle (html : String) : Option String :=
  (html.data.tails.findSome? matchTitleAt).map (fun cap => String.mk (trimChars cap))

/-! ## Design system assembly (extractDesignSystem, src/lib/analyzer.ts 117-146) -/

/-- extractDesignSystem: extracted colors and typography plus the three
constant reference scales. -/
def extractDesignSystem (html : String) : DesignSystem :=
  { colors := extractColors html,
    typography := extractTypography html,
    components := [],
    spacing := [("xs", "0.25rem"), ("sm", "0.5rem"), ("md", "1rem"),
                ("lg", "1.5rem"), ("xl", "2rem"), ("2xl", "3rem")],
    borderRadii := [("none", "0"), ("sm", "0.125rem"), ("base", "0.25rem"),
                    ("md", "0.375rem"), ("lg", "0.5rem"), ("xl", "0.75rem")],
    breakpoints := [("sm", "640px"), ("md", "768px"), ("lg", "1024px"),
                    ("xl", "1280px"), ("2xl", "1536px")] }

/-! ## The orchestrator (analyzeWebsite, src/lib/analyzer.ts 9-77)

The two external effects, the mandatory fetch and the optional
screenshot capture, are modelled by an event environment describing how
each would resolve for the given request. -/

/-- Outcome of the HTTP fetch: a resolved response with status, status
text and body, an abort by the thirty-second timer, or a rejected
promise (network error). -/
inductive FetchEvent where
  | resolved (status : Nat) (statusText : String) (body : String)
  | abortTimeout
  | networkFailure (msg : String)
deriving DecidableEq, Repr

/-- res.ok of the fetch response: status in the 2xx range. -/
def resOk (status : Nat) : Bool := 200 ≤ status && status ≤ 299

/-- fetchHTMLStrict (src/lib/analyzer.ts 83-111): the body on a 2xx
response; otherwise an error. A non-2xx status raises inside the try
block, so its message is wrapped by the same catch that wraps network
errors; an abort is reported as the timeout. -/
def fetchHTMLStrict : FetchEvent → Except String String
  | .resolved status statusText body =>
    if resOk status then .ok body
    else .error ("HTML fetch failed: HTTP " ++ toString status ++ " " ++ statusText)
  | .abortTimeout => .error "HTML fetch timeout (30s)"
  | .networkFailure msg => .error ("HTML fetch failed: " ++ msg)

/-- Whether the fetch event is one of the fatal outcomes (non-2xx,
timeout, network error). -/
def fetchFails : FetchEvent → Bool
  | .resolved status _ _ => !(resOk status)
  | .abortTimeout => true
  | .networkFailure _ => true

/-- Outcome of the optional screenshot capture: a resolved data URI, or
a rejection anywhere in the capture (browser launch included). -/
inductive ScreenshotEvent where
  | captured (dataUri : String)
  | failed (msg : String)
deriving DecidableEq, Repr

/-- The environment of one analysis request: the URL parse verdict and
hostname, and how the two external effects resolve. -/
structure AnalysisEnv where
  urlValid : Bool
  hostname : String
  fetch : FetchEvent
  shot : ScreenshotEvent
  now : String
deriving Repr

/-- The JavaScript or-else on a nullable string (an empty string is
falsy and also falls through to the default). -/
def jsOr (o : Option String) (d : String) : String :=
  match o with
  | some s => if s = "" then d else s
  | none => d

/-- analyzeWebsite: validate the URL, run the mandatory fetch (fatal on
failure), extract title, design system and layout from the markup, then,
only when requested, attempt the screenshot with every failure absorbed
(a falsy capture result also becomes the absent value), and assemble the
result record. -/
def analyzeWebsite (env : AnalysisEnv) (url : String) (captureScreenshot : Bool) :
    Except String WebsiteAnalysis :=
  if env.urlValid = false then .error "Invalid URL provided"
  else
    match fetchHTMLStrict env.fetch with
    | .error e => .error e
    | .ok html =>
      let title := jsOr (extractPageTitle html) env.hostname
      let designSystem := extractDesignSystem html
      let layout := extractLayoutStructure html
      let screenshot : Option String :=
        if captureScreenshot then
          match env.shot with
          | .captured s => if s = "" then none else some s
          | .failed _ => none
        else none
      .ok { url := url, title := title, screenshot := screenshot,
            designSystem := designSystem, layout := layout, extractedAt := env.now }

/-! ## Canonical-hex predicate of the data model -/

/-- The canonical form of the spec: a hash sign followed by exactly six
upper-case hex digits (seven characters in total). -/
def canonicalHex (s : String) : Bool :=
  s.length = 7 && s.data.head? = some '#' && (s.data.drop 1).all isUpperHexDigit

/-- Two-digit-minimum upper-case hex rendering of a numeric byte value
(the component form of the canonical RRGGBB output). -/
def byteHexUpper (n : Nat) : List Char :=
  (if (Nat.toDigits 16 n).length < 2
   then List.replicate (2 - (Nat.toDigits 16 n).length) '0' ++ Nat.toDigits 16 n
   else Nat.toDigits 16 n).map Char.toUpper

/-! ## Helper lemmas: characters and hex digits -/

theorem charOfNat_toNat {n : Nat} (h : n < 55296) : (Char.ofNat n).toNat = n := by
  rw [Char.ofNat, dif_pos (Or.inl h)]
  rfl

theorem isHexDigit_toUpper {c : Char} (h : isHexDigit c = true) :
    isUpperHexDigit c.toUpper = true := by
  simp only [isHexDigit, Bool.or_eq_true, Bool.and_eq_true, decide_eq_true_eq] at h
  simp only [Char.toUpper]
  by_cases hc : c.toNat ≥ 97 ∧ c.toNat ≤ 122
  · rw [if_pos hc]
    have hval : (Char.ofNat (c.toNat - 32)).toNat = c.toNat - 32 := charOfNat_toNat (by omega)
    simp only [isUpperHexDigit, Bool.or_eq_true, Bool.and_eq_true, decide_eq_true_eq, hval]
    omega
  · rw [if_neg hc]
    simp only [isUpperHexDigit, Bool.or_eq_true, Bool.and_eq_true, decide_eq_true_eq]
    omega

theorem isHexDigit_digitChar {n : Nat} (h : n < 16) : isHexDigit (Nat.digitChar n) = true := by
  interval_cases n <;> decide

theorem mem_toDigitsCore_hex : ∀ (f n : Nat) (ds : List Char),
    (∀ c ∈ ds, isHexDigit c = true) →
    ∀ c ∈ Nat.toDigitsCore 16 f n ds, isHexDigit c = true := by
  intro f
  induction f with
  | zero =>
    intro n ds hds c hc
    rw [Nat.toDigitsCore] at hc
    exact hds c hc
  | succ f ih =>
    intro n ds hds c hc
    rw [Nat.toDigitsCore] at hc
    by_cases hz : n / 16 = 0
    · rw [if_pos hz] at hc
      rcases List.mem_cons.1 hc with h | h
      · subst h; exact isHexDigit_digitChar (Nat.mod_lt _ (by norm_num))
      · exact hds c h
    · rw [if_neg hz] at hc
      refine ih (n / 16) _ ?_ c hc
      intro c' hc'
      rcases List.mem_cons.1 hc' with h | h
      · subst h; exact isHexDigit_digitChar (Nat.mod_lt _ (by norm_num))
      · exact hds c' h

theorem mem_toDigits_hex {n : Nat} {c : Char} (hc : c ∈ Nat.toDigits 16 n) :
    isHexDigit c = true := by
  rw [Nat.toDigits] at hc
  exact mem_toDigitsCore_hex (n + 1) n [] (by simp) c hc

theorem mem_hexByte_hex {ds : List Char} {c : Char} (hc : c ∈ hexByte ds) :
    isHexDigit c = true := by
  simp only [hexByte] at hc
  split at hc
  · rcases List.mem_append.1 hc with h | h
    · rw [List.eq_of_mem_replicate h]; decide
    · exact mem_toDigits_hex h
  · exact mem_toDigits_hex hc

/-! ## Helper lemmas: strings and doubling -/

theorem string_mk_data (l : List Char) : (String.mk l).data = l := rfl

theorem string_mk_length (l : List Char) : (String.mk l).length = l.length := rfl

theorem length_doubled (l : List Char) :
    ((l.map fun x => [x, x]).flatten).length = 2 * l.length := by
  induction l with
  | nil => simp
  | cons c l ih => simp only [List.map_cons, List.flatten_cons, List.length_append, ih,
      List.length_cons, List.length_nil]; omega

theorem mem_doubled {l : List Char} {c : Char} (h : c ∈ (l.map fun x => [x, x]).flatten) :
    c ∈ l := by
  simp only [List.mem_flatten, List.mem_map] at h
  obtain ⟨a, ⟨x, hx, rfl⟩, hca⟩ := h
  rcases List.mem_cons.1 hca with rfl | hca2
  · exact hx
  · rcases List.mem_cons.1 hca2 with rfl | hca3
    · exact hx
    · exact absurd hca3 (List.not_mem_nil c)

/-! ## Helper lemmas: the scanner only produces well-shaped matches -/

/-- Every string produced by the scanner that begins with a hash sign is
the hash sign followed by exactly three or six hex digits. -/
def scanShape (s : String) : Prop :=
  ∀ t, s.data = '#' :: t → (t.all isHexDigit = true ∧ (t.length = 3 ∨ t.length = 6))

theorem matchHexAt_shape {cs m rest : List Char} (h : matchHexAt cs = some (m, rest)) :
    ∃ t, m = '#' :: t ∧ t.all isHexDigit = true ∧ (t.length = 3 ∨ t.length = 6) := by
  rcases cs with _ | ⟨c, rest0⟩
  · simp [matchHexAt] at h
  · simp only [matchHexAt] at h
    split at h
    · rename_i hc
      split at h
      · rename_i h6
        have h6' : (rest0.take 6).length = 6 ∧ (rest0.take 6).all isHexDigit = true := by
          simpa [Bool.and_eq_true, decide_eq_true_eq] using h6
        injection h with h'
        injection h' with hm hr
        exact ⟨rest0.take 6, by rw [← hm, hc], h6'.2, Or.inr h6'.1⟩
      · split at h
        · rename_i h3
          have h3' : (rest0.take 3).length = 3 ∧ (rest0.take 3).all isHexDigit = true := by
            simpa [Bool.and_eq_true, decide_eq_true_eq] using h3
          injection h with h'
          injection h' with hm hr
          exact ⟨rest0.take 3, by rw [← hm, hc], h3'.2, Or.inl h3'.1⟩
        · exact absurd h (by simp)
    · exact absurd h (by simp)

theorem matchRgbAt_head {cs m rest : List Char} (h : matchRgbAt cs = some (m, rest)) :
    ∃ r t, m = r :: t ∧ r.toLower = 'r' := by
  rcases cs with _ | ⟨r, _ | ⟨g, _ | ⟨b, rest0⟩⟩⟩
  · simp [matchRgbAt] at h
  · simp [matchRgbAt] at h
  · simp [matchRgbAt] at h
  · simp only [matchRgbAt] at h
    split at h
    · rename_i hguard
      have hguard' : (r.toLower = 'r' ∧ g.toLower = 'g') ∧ b.toLower = 'b' := by
        simpa [Bool.and_eq_true, decide_eq_true_eq] using hguard
      have hr : r.toLower = 'r' := hguard'.1.1
      split at h
      · split at h
        · obtain ⟨p, -, hfp⟩ := Option.map_eq_some'.1 h
          exact ⟨r, _, (congrArg Prod.fst hfp).symm, hr⟩
        · obtain ⟨p, -, hfp⟩ := Option.map_eq_some'.1 h
          exact ⟨r, _, (congrArg Prod.fst hfp).symm, hr⟩
      · obtain ⟨p, -, hfp⟩ := Option.map_eq_some'.1 h
        exact ⟨r, _, (congrArg Prod.fst hfp).symm, hr⟩
    · exact absurd h (by simp)

theorem matchColorAt_shape {cs m rest : List Char} (h : matchColorAt cs = some (m, rest)) :
    scanShape (String.mk m) := by
  intro t ht
  have htm : m = '#' :: t := ht
  rw [matchColorAt] at h
  rcases hh : matchHexAt cs with _ | p
  · rw [hh] at h
    obtain ⟨r, t', hmr, hr⟩ := matchRgbAt_head h
    rw [htm] at hmr
    injection hmr with h1 h2
    rw [← h1] at hr
    exact absurd hr (by decide)
  · rw [hh] at h
    injection h with h'
    obtain ⟨t0, hm0, hall, hlen⟩ := matchHexAt_shape hh
    rw [h'] at hm0
    rw [htm] at hm0
    injection hm0 with h1 h2
    subst h2
    exact ⟨hall, hlen⟩

theorem mem_scanColorsAux_shape : ∀ (fuel : Nat) (cs : List Char) (s : String),
    s ∈ scanColorsAux fuel cs → scanShape s := by
  intro fuel
  induction fuel with
  | zero => intro cs s hs; simp [scanColorsAux] at hs
  | succ fuel ih =>
    intro cs s hs
    rcases cs with _ | ⟨c, cs⟩
    · simp [scanColorsAux] at hs
    · rw [scanColorsAux] at hs
      rcases hm : matchColorAt (c :: cs) with _ | ⟨m, rest⟩
      · rw [hm] at hs
        exact ih _ _ hs
      · rw [hm] at hs
        rcases List.mem_cons.1 hs with h | h
        · rw [h]
          exact matchColorAt_shape hm
        · exact ih _ _ h

theorem mem_scanColors_shape {cs : List Char} {s : String} (h : s ∈ scanColors cs) :
    scanShape s :=
  mem_scanColorsAux_shape _ _ _ h

/-! ## Helper lemmas: normalization output is canonical -/

/-- The property of every entry the extractor keeps: canonical hex form,
neither pure black nor pure white. -/
def goodColorHex (hex : String) : Prop :=
  canonicalHex hex = true ∧ hex ≠ "#000000" ∧ hex ≠ "#FFFFFF"

theorem canonicalHex_mk {X : List Char} (hlen : X.length = 6)
    (hall : X.all isUpperHexDigit = true) :
    canonicalHex (String.mk ('#' :: X)) = true := by
  simp [canonicalHex, string_mk_data, string_mk_length, hlen, hall]

theorem toUpper_hash : Char.toUpper '#' = '#' := by decide

theorem normalizeColor_good {m hex : String} (hm : scanShape m)
    (hn : normalizeColor m = some hex) (hv : isValidColor hex = true) :
    goodColorHex hex := by
  have hv' : (hex.length = 7 ∧ hex ≠ "#000000") ∧ hex ≠ "#FFFFFF" := by
    simpa [isValidColor, Bool.and_eq_true, decide_eq_true_eq] using hv
  refine ⟨?_, hv'.1.2, hv'.2⟩
  unfold normalizeColor at hn
  split at hn
  · rename_i c rest heq
    split at hn
    · rename_i hc
      subst hc
      have hsh := hm rest heq
      split at hn
      · rename_i h3
        injection hn with hx
        subst hx
        refine canonicalHex_mk ?_ ?_
        · rw [List.length_map, length_doubled, h3]
        · rw [List.all_eq_true]
          intro x hx'
          obtain ⟨y, hy, rfl⟩ := List.mem_map.1 hx'
          exact isHexDigit_toUpper (List.all_eq_true.1 hsh.1 y (mem_doubled hy))
      · rename_i h3
        have h6 : rest.length = 6 := by
          rcases hsh.2 with h | h
          · exact absurd h h3
          · exact h
        rw [List.map_cons, toUpper_hash] at hn
        injection hn with hx
        subst hx
        refine canonicalHex_mk ?_ ?_
        · rw [List.length_map, h6]
        · rw [List.all_eq_true]
          intro x hx'
          obtain ⟨y, hy, rfl⟩ := List.mem_map.1 hx'
          exact isHexDigit_toUpper (List.all_eq_true.1 hsh.1 y hy)
    · rename_i hc
      split at hn
      · rename_i d1 d2 d3 heq2
        rw [List.map_cons, toUpper_hash] at hn
        injection hn with hx
        have hlen6 : ((hexByte d1 ++ hexByte d2 ++ hexByte d3).map Char.toUpper).length = 6 := by
          have h7 := hv'.1.1
          rw [← hx] at h7
          rw [string_mk_length, List.length_cons] at h7
          omega
        rw [← hx]
        refine canonicalHex_mk hlen6 ?_
        rw [List.all_eq_true]
        intro x hx'
        obtain ⟨y, hy, rfl⟩ := List.mem_map.1 hx'
        rcases List.mem_append.1 hy with h | h
        · rcases List.mem_append.1 h with h' | h'
          · exact isHexDigit_toUpper (mem_hexByte_hex h')
          · exact isHexDigit_toUpper (mem_hexByte_hex h')
        · exact isHexDigit_toUpper (mem_hexByte_hex h)
      · exact absurd hn (by simp)
  · exact absurd hn (by simp)

/-! ## Helper lemmas: the dedup fold -/

theorem foldl_addColor_good : ∀ (ms acc : List String),
    (∀ s ∈ ms, scanShape s) → (∀ x ∈ acc, goodColorHex x) →
    ∀ x ∈ ms.foldl addColor acc, goodColorHex x := by
  intro ms
  induction ms with
  | nil =>
    intro acc _ hacc x hx
    exact hacc x (by simpa using hx)
  | cons m ms ih =>
    intro acc hms hacc x hx
    rw [List.foldl_cons] at hx
    refine ih (addColor acc m) (fun s hs => hms s (List.mem_cons_of_mem _ hs)) ?_ x hx
    intro y hy
    unfold addColor at hy
    split at hy
    · rename_i hex' hnorm
      split at hy
      · rename_i hcond
        rcases List.mem_append.1 hy with h | h
        · exact hacc y h
        · have hyx : y = hex' := by simpa using h
          subst hyx
          have hcond' : isValidColor y = true ∧ !(acc.contains y) = true := by
            simpa [Bool.and_eq_true] using hcond
          exact normalizeColor_good (hms m (List.mem_cons_self m ms)) hnorm hcond'.1
      · exact hacc y hy
    · exact hacc y hy

theorem mem_extractColorSet_good {html hex : String}
    (h : hex ∈ extractColorSet html) : goodColorHex hex := by
  unfold extractColorSet at h
  exact foldl_addColor_good _ [] (fun s hs => mem_scanColors_shape hs) (by simp) hex h

theorem foldl_addColor_nodup : ∀ (ms acc : List String), acc.Nodup →
    (ms.foldl addColor acc).Nodup := by
  intro ms
  induction ms with
  | nil => intro acc h; simpa using h
  | cons m ms ih =>
    intro acc h
    rw [List.foldl_cons]
    refine ih _ ?_
    unfold addColor
    split
    · rename_i hex' hnorm
      split
      · rename_i hcond
        have hcond' : isValidColor hex' = true ∧ !(acc.contains hex') = true := by
          simpa [Bool.and_eq_true] using hcond
        have hnotmem : hex' ∉ acc := by
          intro hmem
          have hc : acc.contains hex' = true := List.elem_iff.mpr hmem
          rw [hc] at hcond'
          simp at hcond'
        simp [List.nodup_append, h, hnotmem]
      · exact h
    · exact h

theorem extractColorSet_nodup (html : String) : (extractColorSet html).Nodup :=
  foldl_addColor_nodup _ [] List.nodup_nil

theorem foldl_insertAbsent_of_nodup : ∀ (l acc : List String), (acc ++ l).Nodup →
    l.foldl (fun acc s => if acc.contains s then acc else acc ++ [s]) acc = acc ++ l := by
  intro l
  induction l with
  | nil => intro acc _; simp
  | cons x l ih =>
    intro acc h
    have hx : x ∉ acc := by
      rcases List.nodup_append.1 h with ⟨-, -, hdisj⟩
      intro hmem
      exact hdisj hmem (List.mem_cons_self x l)
    have hc : acc.contains x = false := by
      by_cases hcc : acc.contains x = true
      · exact absurd (List.elem_iff.mp hcc) hx
      · simpa using hcc
    rw [List.foldl_cons, if_neg (by simpa using hx)]
    have h' : ((acc ++ [x]) ++ l).Nodup := by
      rw [List.append_assoc]
      simpa using h
    rw [ih (acc ++ [x]) h', List.append_assoc]
    rfl

theorem dedupKeepFirst_of_nodup {l : List String} (h : l.Nodup) : dedupKeepFirst l = l := by
  unfold dedupKeepFirst
  simpa using foldl_insertAbsent_of_nodup l [] (by simpa using h)

/-! ## Helper lemmas: the indexed map -/

theorem mapWithIndex_length (f : Nat → α → β) :
    ∀ (k : Nat) (l : List α), (mapWithIndex f k l).length = l.length := by
  intro k l
  induction l generalizing k with
  | nil => rfl
  | cons a as ih => simp [mapWithIndex, ih]

theorem mem_mapWithIndex {f : Nat → α → β} :
    ∀ {l : List α} {k : Nat} {b : β}, b ∈ mapWithIndex f k l → ∃ i a, a ∈ l ∧ b = f i a := by
  intro l
  induction l with
  | nil => intro k b h; simp [mapWithIndex] at h
  | cons a as ih =>
    intro k b h
    rw [mapWithIndex] at h
    rcases List.mem_cons.1 h with h' | h'
    · exact ⟨k, a, List.mem_cons_self _ _, h'⟩
    · obtain ⟨i, a', ha', hb⟩ := ih h'
      exact ⟨i, a', List.mem_cons_of_mem _ ha', hb⟩

theorem mapWithIndex_getD (f : Nat → α → β) :
    ∀ (l : List α) (k i : Nat) (d : β) (da : α), i < l.length →
      (mapWithIndex f k l).getD i d = f (k + i) (l.getD i da) := by
  intro l
  induction l with
  | nil => intro k i d da h; simp at h
  | cons a as ih =>
    intro k i d da h
    rcases i with _ | i
    · simp [mapWithIndex]
    · rw [mapWithIndex, List.getD_cons_succ, List.getD_cons_succ,
        ih (k + 1) i d da (by simpa using h)]
      have harith : k + 1 + i = k + (i + 1) := by omega
      rw [harith]

/-! ## Helper lemmas: decimal digits and the render-reparse round trip -/

theorem isAsciiDigit_digitChar {n : Nat} (h : n < 10) :
    isAsciiDigit (Nat.digitChar n) = true := by
  interval_cases n <;> decide

theorem digitChar_val {n : Nat} (h : n < 10) : (Nat.digitChar n).toNat - 48 = n := by
  interval_cases n <;> decide

theorem mem_toDigitsCore_dec : ∀ (f n : Nat) (ds : List Char),
    (∀ c ∈ ds, isAsciiDigit c = true) →
    ∀ c ∈ Nat.toDigitsCore 10 f n ds, isAsciiDigit c = true := by
  intro f
  induction f with
  | zero =>
    intro n ds hds c hc
    rw [Nat.toDigitsCore] at hc
    exact hds c hc
  | succ f ih =>
    intro n ds hds c hc
    rw [Nat.toDigitsCore] at hc
    by_cases hz : n / 10 = 0
    · rw [if_pos hz] at hc
      rcases List.mem_cons.1 hc with h | h
      · subst h; exact isAsciiDigit_digitChar (Nat.mod_lt _ (by norm_num))
      · exact hds c h
    · rw [if_neg hz] at hc
      refine ih (n / 10) _ ?_ c hc
      intro c' hc'
      rcases List.mem_cons.1 hc' with h | h
      · subst h; exact isAsciiDigit_digitChar (Nat.mod_lt _ (by norm_num))
      · exact hds c' h

theorem mem_toDigits_dec {n : Nat} {c : Char} (hc : c ∈ Nat.toDigits 10 n) :
    isAsciiDigit c = true := by
  rw [Nat.toDigits] at hc
  exact mem_toDigitsCore_dec (n + 1) n [] (by simp) c hc

theorem toDigitsCore_length_ge : ∀ (f n : Nat) (ds : List Char),
    ds.length ≤ (Nat.toDigitsCore 10 f n ds).length := by
  intro f
  induction f with
  | zero => intro n ds; rw [Nat.toDigitsCore]
  | succ f ih =>
    intro n ds
    rw [Nat.toDigitsCore]
    by_cases hz : n / 10 = 0
    · rw [if_pos hz]; simp
    · rw [if_neg hz]
      calc ds.length ≤ (Nat.digitChar (n % 10) :: ds).length := by simp
      _ ≤ _ := ih (n / 10) (Nat.digitChar (n % 10) :: ds)

theorem toDigits_dec_ne_nil (n : Nat) : Nat.toDigits 10 n ≠ [] := by
  rw [Nat.toDigits, Nat.toDigitsCore]
  by_cases hz : n / 10 = 0
  · rw [if_pos hz]; simp
  · rw [if_neg hz]
    intro hnil
    have hge := toDigitsCore_length_ge n (n / 10) [Nat.digitChar (n % 10)]
    rw [hnil] at hge
    simp at hge

theorem foldl_digits_init (ds : List Char) (init : Nat) :
    ds.foldl (fun n c => n * 10 + (c.toNat - 48)) init
      = init * 10 ^ ds.length + natOfDigits ds := by
  induction ds generalizing init with
  | nil => simp [natOfDigits]
  | cons c ds ih =>
    rw [List.foldl_cons, ih]
    have h2 : natOfDigits (c :: ds) = (c.toNat - 48) * 10 ^ ds.length + natOfDigits ds := by
      unfold natOfDigits
      rw [List.foldl_cons, ih]
      simp [natOfDigits]
    rw [h2, List.length_cons]
    ring

theorem natOfDigits_toDigitsCore : ∀ (f n : Nat), n < 10 ^ f → ∀ (ds : List Char),
    natOfDigits (Nat.toDigitsCore 10 f n ds) = n * 10 ^ ds.length + natOfDigits ds := by
  intro f
  induction f with
  | zero =>
    intro n hn ds
    interval_cases n
    rw [Nat.toDigitsCore]
    simp
  | succ f ih =>
    intro n hn ds
    rw [Nat.toDigitsCore]
    have hmod : n % 10 < 10 := Nat.mod_lt _ (by norm_num)
    have hval : natOfDigits (Nat.digitChar (n % 10) :: ds)
        = (n % 10) * 10 ^ ds.length + natOfDigits ds := by
      unfold natOfDigits
      rw [List.foldl_cons, foldl_digits_init, digitChar_val hmod]
      simp [natOfDigits]
    by_cases hz : n / 10 = 0
    · rw [if_pos hz, hval]
      have hn10 : n % 10 = n := by omega
      rw [hn10]
    · rw [if_neg hz]
      have hdiv : n / 10 < 10 ^ f := by
        rw [pow_succ] at hn
        omega
      rw [ih (n / 10) hdiv (Nat.digitChar (n % 10) :: ds), hval, List.length_cons, pow_succ]
      have hq : n / 10 * (10 ^ ds.length * 10) + ((n % 10) * 10 ^ ds.length + natOfDigits ds)
          = (10 * (n / 10) + n % 10) * 10 ^ ds.length + natOfDigits ds := by ring
      rw [hq, Nat.div_add_mod]

theorem natOfDigits_toDigits (n : Nat) : natOfDigits (Nat.toDigits 10 n) = n := by
  rw [Nat.toDigits]
  have hlt : n < 10 ^ (n + 1) := by
    calc n < 2 ^ n := Nat.lt_two_pow n
    _ ≤ 10 ^ n := Nat.pow_le_pow_left (by norm_num) n
    _ ≤ 10 ^ (n + 1) := Nat.pow_le_pow_right (by norm_num) (by omega)
  rw [natOfDigits_toDigitsCore (n + 1) n hlt []]
  simp [natOfDigits]

theorem toDigits16_length_le {n : Nat} (h : n ≤ 255) : (Nat.toDigits 16 n).length ≤ 2 := by
  rw [Nat.toDigits]
  by_cases h1 : n < 16
  · rw [Nat.toDigitsCore, if_pos (by omega)]
    simp
  · rw [Nat.toDigitsCore, if_neg (by omega)]
    obtain ⟨m, rfl⟩ : ∃ m, n = m + 1 := ⟨n - 1, by omega⟩
    rw [Nat.toDigitsCore, if_pos (by omega)]
    simp

theorem byteHexUpper_length {n : Nat} (h : n ≤ 255) : (byteHexUpper n).length = 2 := by
  rw [byteHexUpper, List.length_map]
  split
  · rename_i hlt
    rw [List.length_append, List.length_replicate]
    omega
  · rename_i hge
    have hle := toDigits16_length_le h
    omega

theorem isEmpty_false_of_ne_nil {l : List Char} (h : l ≠ []) : l.isEmpty = false := by
  rcases l with _ | ⟨c, l⟩
  · exact absurd rfl h
  · rfl

theorem takeWhile_append_boundary {p : Char → Bool} :
    ∀ (l r : List Char), (∀ c ∈ l, p c = true) →
      (∀ c, r.head? = some c → p c = false) →
      (l ++ r).takeWhile p = l ∧ (l ++ r).dropWhile p = r := by
  intro l
  induction l with
  | nil =>
    intro r _ hr
    rcases r with _ | ⟨c, r⟩
    · simp
    · have hc := hr c rfl
      simp [List.takeWhile_cons, List.dropWhile_cons, hc]
  | cons x l ih =>
    intro r hl hr
    have hx := hl x (List.mem_cons_self _ _)
    obtain ⟨h1, h2⟩ := ih r (fun c hc => hl c (List.mem_cons_of_mem _ hc)) hr
    simp [List.takeWhile_cons, List.dropWhile_cons, hx, h1, h2]

theorem isAsciiDigit_not_space {c : Char} (h : isAsciiDigit c = true) :
    isJsSpace c = false := by
  rw [Bool.eq_false_iff]
  intro htrue
  simp only [isJsSpace, Bool.or_eq_true, decide_eq_true_eq] at htrue
  rcases htrue with ((((((h1 | h1) | h1) | h1) | h1) | h1) | h1) | h1 <;>
    (subst h1; exact absurd h (by decide))

theorem isAsciiDigit_comma_false : isAsciiDigit ',' = false := by decide

theorem dropWhile_nil_of_head_not {p : Char → Bool} {l : List Char}
    (h : ∀ c, l.head? = some c → p c = false) : l.dropWhile p = l := by
  rcases l with _ | ⟨c, l⟩
  · rfl
  · rw [List.dropWhile_cons, if_neg (by simp [h c rfl])]

theorem innerRgbAt_digits (r g b : Nat) :
    innerRgbAt ('r' :: 'g' :: 'b' :: '(' ::
      (Nat.toDigits 10 r ++ ',' :: ' ' :: (Nat.toDigits 10 g ++ ',' :: ' ' :: Nat.toDigits 10 b)))
      = some (Nat.toDigits 10 r, Nat.toDigits 10 g, Nat.toDigits 10 b) := by
  have hallr : ∀ c ∈ Nat.toDigits 10 r, isAsciiDigit c = true := fun c hc => mem_toDigits_dec hc
  have hallg : ∀ c ∈ Nat.toDigits 10 g, isAsciiDigit c = true := fun c hc => mem_toDigits_dec hc
  have hallb : ∀ c ∈ Nat.toDigits 10 b, isAsciiDigit c = true := fun c hc => mem_toDigits_dec hc
  obtain ⟨ht1, hd1⟩ := takeWhile_append_boundary (Nat.toDigits 10 r)
    (',' :: ' ' :: (Nat.toDigits 10 g ++ ',' :: ' ' :: Nat.toDigits 10 b)) hallr
    (fun c hc => by simp at hc; subst hc; decide)
  have hg2 : (Nat.toDigits 10 g ++ ',' :: ' ' :: Nat.toDigits 10 b).dropWhile isJsSpace
      = Nat.toDigits 10 g ++ ',' :: ' ' :: Nat.toDigits 10 b := by
    apply dropWhile_nil_of_head_not
    intro c hc
    rcases hDg : Nat.toDigits 10 g with _ | ⟨g0, gs⟩
    · exact absurd hDg (toDigits_dec_ne_nil g)
    · rw [hDg] at hc
      simp at hc
      subst hc
      exact isAsciiDigit_not_space (hallg g0 (by rw [hDg]; exact List.mem_cons_self _ _))
  obtain ⟨ht2, hd2⟩ := takeWhile_append_boundary (Nat.toDigits 10 g)
    (',' :: ' ' :: Nat.toDigits 10 b) hallg (fun c hc => by simp at hc; subst hc; decide)
  have hb2 : (Nat.toDigits 10 b).dropWhile isJsSpace = Nat.toDigits 10 b := by
    apply dropWhile_nil_of_head_not
    intro c hc
    rcases hDb : Nat.toDigits 10 b with _ | ⟨b0, bs⟩
    · exact absurd hDb (toDigits_dec_ne_nil b)
    · rw [hDb] at hc
      simp at hc
      subst hc
      exact isAsciiDigit_not_space (hallb b0 (by rw [hDb]; exact List.mem_cons_self _ _))
  have ht3 : (Nat.toDigits 10 b).takeWhile isAsciiDigit = Nat.toDigits 10 b := by
    have hx := takeWhile_append_boundary (Nat.toDigits 10 b) [] hallb (fun c hc => by simp at hc)
    simpa using hx.1
  simp only [innerRgbAt, ht1, hd1, ht2, hd2, ht3, hg2, hb2, List.dropWhile_cons,
    isEmpty_false_of_ne_nil (toDigits_dec_ne_nil r),
    isEmpty_false_of_ne_nil (toDigits_dec_ne_nil g),
    isEmpty_false_of_ne_nil (toDigits_dec_ne_nil b),
    (show isJsSpace ' ' = true by decide)]
  simp [ht2, hd2, ht3, hg2, hb2,
    isEmpty_false_of_ne_nil (toDigits_dec_ne_nil g),
    isEmpty_false_of_ne_nil (toDigits_dec_ne_nil b)]
  rw [List.dropWhile_cons, if_pos (show isJsSpace ' ' = true by decide), hb2, ht3]
  refine ⟨⟨List.length_pos.2 (toDigits_dec_ne_nil b), ?_⟩, rfl⟩
  exact hallb _ (List.getElem_mem _)

theorem innerRgbMatch_digits (r g b : Nat) :
    innerRgbMatch ('r' :: 'g' :: 'b' :: '(' ::
      (Nat.toDigits 10 r ++ ',' :: ' ' :: (Nat.toDigits 10 g ++ ',' :: ' ' :: Nat.toDigits 10 b)))
      = some (Nat.toDigits 10 r, Nat.toDigits 10 g, Nat.toDigits 10 b) := by
  unfold innerRgbMatch
  rw [List.tails]
  rw [List.findSome?_cons]
  rw [innerRgbAt_digits]

/-! ## Claim theorems -/

/-- C1: for every environment, URL and captureScreenshot flag, if the
mandatory static fetch resolves with a non-2xx status, times out, or
fails with a network error, analyzeWebsite fails with the static-fetch
error message and produces no result record. -/
theorem analyzeWebsite_static_fetch_fatal (env : AnalysisEnv) (url : String)
    (captureScreenshot : Bool) (hv : env.urlValid = true)
    (hf : fetchFails env.fetch = true) :
    ∃ msg, fetchHTMLStrict env.fetch = Except.error msg ∧
      analyzeWebsite env url captureScreenshot = Except.error msg := by
  have herr : ∃ msg, fetchHTMLStrict env.fetch = Except.error msg := by
    rcases hfe : env.fetch with ⟨status, statusText, body⟩ | _ | m
    · rw [hfe] at hf
      have hres : resOk status = false := by simpa [fetchFails] using hf
      exact ⟨_, by rw [fetchHTMLStrict, if_neg (by simp [hres])]⟩
    · exact ⟨_, rfl⟩
    · exact ⟨_, rfl⟩
  obtain ⟨msg, hmsg⟩ := herr
  refine ⟨msg, hmsg, ?_⟩
  rw [analyzeWebsite, if_neg (by simp [hv]), hmsg]

/-- Witness for C1: a 404 response is fatal to the whole analysis. -/
theorem analyzeWebsite_static_fetch_fatal_witness :
    ∃ msg, fetchHTMLStrict (FetchEvent.resolved 404 "Not Found" "") = Except.error msg ∧
      analyzeWebsite
        { urlValid := true, hostname := "example.com",
          fetch := FetchEvent.resolved 404 "Not Found" "",
          shot := ScreenshotEvent.failed "browser launch failed", now := "t0" }
        "https://example.com/missing" true = Except.error msg :=
  analyzeWebsite_static_fetch_fatal
    { urlValid := true, hostname := "example.com",
      fetch := FetchEvent.resolved 404 "Not Found" "",
      shot := ScreenshotEvent.failed "browser launch failed", now := "t0" }
    "https://example.com/missing" true rfl (by decide)

/-- C2: when the static fetch succeeds, captureScreenshot is true and
the screenshot capture fails (browser launch included), analyzeWebsite
still returns a complete result whose title, design system, layout and
timestamp come from the markup, with the screenshot explicitly absent. -/
theorem analyzeWebsite_screenshot_failure_absorbed (env : AnalysisEnv) (url : String)
    (status : Nat) (statusText html msg : String)
    (hv : env.urlValid = true)
    (hfetch : env.fetch = FetchEvent.resolved status statusText html)
    (hok : resOk status = true)
    (hshot : env.shot = ScreenshotEvent.failed msg) :
    analyzeWebsite env url true = Except.ok
      { url := url,
        title := jsOr (extractPageTitle html) env.hostname,
        screenshot := none,
        designSystem := extractDesignSystem html,
        layout := extractLayoutStructure html,
        extractedAt := env.now } := by
  rw [analyzeWebsite, if_neg (by simp [hv]), hfetch,
    show fetchHTMLStrict (FetchEvent.resolved status statusText html) = Except.ok html from by
      rw [fetchHTMLStrict, if_pos hok]]
  rw [hshot]
  rfl

/-- Witness for C2: a failed browser launch still yields the complete
markup-derived record. -/
theorem analyzeWebsite_screenshot_failure_absorbed_witness :
    analyzeWebsite
      { urlValid := true, hostname := "example.com",
        fetch := FetchEvent.resolved 200 "OK" "<h1>Hi</h1>",
        shot := ScreenshotEvent.failed "Browser initialization failed", now := "t1" }
      "https://example.com" true = Except.ok
      { url := "https://example.com",
        title := jsOr (extractPageTitle "<h1>Hi</h1>") "example.com",
        screenshot := none,
        designSystem := extractDesignSystem "<h1>Hi</h1>",
        layout := extractLayoutStructure "<h1>Hi</h1>",
        extractedAt := "t1" } :=
  analyzeWebsite_screenshot_failure_absorbed _ _ 200 "OK" "<h1>Hi</h1>"
    "Browser initialization failed" rfl rfl (by decide) rfl

/-- C3 counterexample: on markup with zero detectable colors the
extractor emits two fallback entries, not five. -/
theorem extractColors_fallback_not_five_entries :
    extractColorSet "plain text with no colors" = [] ∧
    (extractColors "plain text with no colors").length = 2 ∧
    (extractColors "plain text with no colors").length ≠ 5 := by decide

/-- C3 amended: for every markup input in which the extractor detects
zero colors, the output is the deterministic two-entry fallback palette,
pure black tagged neutral and pure white tagged background. -/
theorem extractColors_fallback_pair (html : String) (h : extractColorSet html = []) :
    extractColors html = [{ hex := "#000000", usage := .neutral },
                          { hex := "#FFFFFF", usage := .background }] := by
  unfold extractColors
  rw [h]
  rfl

/-- Witness for the amended C3 at a colorless input. -/
theorem extractColors_fallback_pair_witness :
    extractColors "hello" = [{ hex := "#000000", usage := .neutral },
                             { hex := "#FFFFFF", usage := .background }] :=
  extractColors_fallback_pair "hello" (by decide)

/-- C4 counterexample: markup with none of the recognized structural
tags yields sections equal to the single entry main, not the
header-main-footer triple. -/
theorem extractLayoutStructure_default_not_header_main_footer :
    (∀ t ∈ regionTags, includes "plain body copy" ("<" ++ t) = false) ∧
    (extractLayoutStructure "plain body copy").sections = ["main"] ∧
    (extractLayoutStructure "plain body copy").sections ≠ ["header", "main", "footer"] := by
  decide

/-- C4 amended: for every markup input containing none of the recognized
structural region tags, the layout classifier returns sections equal to
the single entry main. -/
theorem extractLayoutStructure_default_main (html : String)
    (h : ∀ t ∈ regionTags, includes html ("<" ++ t) = false) :
    (extractLayoutStructure html).sections = ["main"] := by
  have hfil : regionTags.filter (fun tag => includes html ("<" ++ tag)) = [] := by
    rw [List.filter_eq_nil_iff]
    intro a ha
    simp [h a ha]
  simp [extractLayoutStructure, hfil]

/-- Witness for the amended C4 at tag-free markup. -/
theorem extractLayoutStructure_default_main_witness :
    (extractLayoutStructure "plain paragraph").sections = ["main"] :=
  extractLayoutStructure_default_main "plain paragraph" (by decide)

/-- C5 counterexample: with five detected colors the entry at index four
is tagged primary by the static extractor, not background as the
five-entry cycle would demand. -/
theorem extractColors_fifth_usage_not_background :
    (extractColors "#111111 #222222 #333333 #444444 #555555").length = 5 ∧
    ((extractColors "#111111 #222222 #333333 #444444 #555555").getD 4 default).usage
      = Usage.primary ∧
    Usage.primary ≠ Usage.background := by decide

/-- C5 amended: in the static extractor the usage of the entry at index
i of the deduplicated sequence is position i mod 4 of the four-entry
cycle primary, secondary, accent, neutral (the five-entry cycle with
background belongs to the rendered-path categorizer only). -/
theorem extractColors_usage_mod4 (html : String) (i : Nat) (d : Color)
    (_hne : extractColorSet html ≠ [])
    (hi : i < ((extractColorSet html).take 10).length) :
    ((extractColors html).getD i d).usage = usageCycle4.getD (i % 4) Usage.primary := by
  unfold extractColors
  have hlen : (mapWithIndex
      (fun i hex => ({ hex := hex, usage := usageCycle4.getD (i % 4) .primary } : Color)) 0
      ((extractColorSet html).take 10)).length ≠ 0 := by
    rw [mapWithIndex_length]
    omega
  rw [if_pos hlen, mapWithIndex_getD _ _ 0 i d "" hi]
  simp

/-- Witness for the amended C5 at five concrete colors. -/
theorem extractColors_usage_mod4_witness :
    ((extractColors "#111111 #222222 #333333 #444444 #555555").getD 4 default).usage
      = usageCycle4.getD (4 % 4) Usage.primary :=
  extractColors_usage_mod4 "#111111 #222222 #333333 #444444 #555555" 4 default
    (by decide) (by decide)

/-- C6: every entry of a non-fallback extractor output has a canonical
seven-character upper-case hex string, and is neither pure black nor
pure white. -/
theorem extractColors_canonicalHex (html : String) (c : Color)
    (hne : extractColorSet html ≠ []) (hmem : c ∈ extractColors html) :
    canonicalHex c.hex = true ∧ c.hex ≠ "#000000" ∧ c.hex ≠ "#FFFFFF" := by
  have hhex : c.hex ∈ extractColorSet html := by
    unfold extractColors at hmem
    have hlen : (mapWithIndex
        (fun i hex => ({ hex := hex, usage := usageCycle4.getD (i % 4) .primary } : Color)) 0
        ((extractColorSet html).take 10)).length ≠ 0 := by
      rw [mapWithIndex_length, List.length_take]
      have hpos := List.length_pos.2 hne
      omega
    rw [if_pos hlen] at hmem
    obtain ⟨i, a, ha, hca⟩ := mem_mapWithIndex hmem
    rw [hca]
    exact (List.take_sublist 10 _).subset ha
  exact mem_extractColorSet_good hhex

/-- Witness for C6 at one concrete detected color. -/
theorem extractColors_canonicalHex_witness :
    canonicalHex "#123ABC" = true ∧ "#123ABC" ≠ "#000000" ∧ "#123ABC" ≠ "#FFFFFF" :=
  extractColors_canonicalHex "#123abc" { hex := "#123ABC", usage := .primary }
    (by decide) (by decide)

/-- C7 counterexample: an rgba literal is matched by the scanner but
rejected by normalization (the inner pattern requires the exact prefix
rgb and an opening paren), so it is not converted to hex. -/
theorem normalizeColor_rgba_discarded :
    normalizeColor "rgba(255, 0, 0" = none ∧
    extractColorSet "background: rgba(255, 0, 0)" = [] := by decide

/-- C7 amended: normalization expands three-digit hex to the doubled
six-digit upper-case form, converts rgb integer triples to the canonical
six-digit upper-case hex of their values (mapping the literal hash-F00
to hash-FF0000 and rgb 255,0,0 to hash-FF0000, and in general any
in-range decimal triple to the seven-character hash form), while rgba
literals are discarded by normalization. -/
theorem normalizeColor_rules :
    (∀ a b c : Char, isHexDigit a = true → isHexDigit b = true → isHexDigit c = true →
      normalizeColor (String.mk ['#', a, b, c]) =
        some (String.mk ['#', a.toUpper, a.toUpper, b.toUpper, b.toUpper,
          c.toUpper, c.toUpper])) ∧
    normalizeColor "#F00" = some "#FF0000" ∧
    normalizeColor "rgb(255, 0, 0" = some "#FF0000" ∧
    normalizeColor "rgba(255, 0, 0" = none ∧
    (∀ r g b : Nat, r ≤ 255 → g ≤ 255 → b ≤ 255 →
      normalizeColor (String.mk ('r' :: 'g' :: 'b' :: '(' ::
          (Nat.toDigits 10 r ++ ',' :: ' ' ::
            (Nat.toDigits 10 g ++ ',' :: ' ' :: Nat.toDigits 10 b)))) =
        some (String.mk ('#' :: (byteHexUpper r ++ byteHexUpper g ++ byteHexUpper b))) ∧
      ('#' :: (byteHexUpper r ++ byteHexUpper g ++ byteHexUpper b)).length = 7) := by
  refine ⟨?_, by decide, by decide, by decide, ?_⟩
  · intro a b c _ _ _
    rfl
  · intro r g b hr hg hb
    constructor
    · unfold normalizeColor
      dsimp only
      rw [if_neg (by decide), innerRgbMatch_digits]
      simp only [hexByte, natOfDigits_toDigits, byteHexUpper, List.map_cons, List.map_append,
        toUpper_hash]
    · rw [List.length_cons, List.length_append, List.length_append,
        byteHexUpper_length hr, byteHexUpper_length hg, byteHexUpper_length hb]

/-- Witness for the amended C7 at concrete hex digits and one concrete
rgb triple. -/
theorem normalizeColor_rules_witness :
    normalizeColor (String.mk ['#', 'f', '0', 'c']) =
      some (String.mk ['#', Char.toUpper 'f', Char.toUpper 'f', Char.toUpper '0',
        Char.toUpper '0', Char.toUpper 'c', Char.toUpper 'c']) ∧
    (normalizeColor (String.mk ('r' :: 'g' :: 'b' :: '(' ::
        (Nat.toDigits 10 255 ++ ',' :: ' ' ::
          (Nat.toDigits 10 0 ++ ',' :: ' ' :: Nat.toDigits 10 64)))) =
      some (String.mk ('#' :: (byteHexUpper 255 ++ byteHexUpper 0 ++ byteHexUpper 64))) ∧
    ('#' :: (byteHexUpper 255 ++ byteHexUpper 0 ++ byteHexUpper 64)).length = 7) :=
  ⟨normalizeColor_rules.1 'f' '0' 'c' (by decide) (by decide) (by decide),
   normalizeColor_rules.2.2.2.2 255 0 64 (by decide) (by decide) (by decide)⟩

/-- C8: the extractor is deterministic and its deduplication idempotent:
identical input yields an identical result, the deduplicated sequence
has no duplicates, and running the dedup pass again changes nothing. -/
theorem extractColors_deterministic (html : String) :
    extractColors html = extractColors html ∧
    (extractColorSet html).Nodup ∧
    dedupKeepFirst (extractColorSet html) = extractColorSet html :=
  ⟨rfl, extractColorSet_nodup html, dedupKeepFirst_of_nodup (extractColorSet_nodup html)⟩

/-- C9: the typography extractor never returns an empty list, and when
no heading, body or caption element is detected it emits exactly the one
fallback body entry with the generic system font family. -/
theorem extractTypography_nonempty_fallback (html : String) :
    extractTypography html ≠ [] ∧
    (headingLevels.find? (fun l => tagTest html l.tag) = none →
     (tagTest html "p" || tagTest html "div") = false →
     (tagTest html "button" || tagTest html "a" || tagTest html "label") = false →
     extractTypography html = [fallbackTypography]) := by
  constructor
  · have hgen : ∀ T : List Typography, (if T.length = 0 then [fallbackTypography] else T) ≠ [] := by
      intro T
      split
      · simp
      · rename_i hlen
        intro hnil
        rw [hnil] at hlen
        exact hlen rfl
    unfold extractTypography
    exact hgen _
  · intro h1 h2 h3
    simp [extractTypography, h1, h2, h3]

/-- Witness for C9 at markup with no recognized elements. -/
theorem extractTypography_nonempty_fallback_witness :
    extractTypography "plain words" ≠ [] ∧
    extractTypography "plain words" = [fallbackTypography] :=
  ⟨(extractTypography_nonempty_fallback "plain words").1,
   (extractTypography_nonempty_fallback "plain words").2 (by decide) (by decide) (by decide)⟩

/-- C10: the static layout classifier never produces the grid type: the
type is multi-column exactly when more than two recognized structural
regions are detected, single-column otherwise. -/
theorem extractLayoutStructure_never_grid (html : String) :
    (extractLayoutStructure html).type ≠ LayoutType.grid ∧
    ((extractLayoutStructure html).type = LayoutType.multiColumn ↔
      2 < (regionTags.filter (fun tag => includes html ("<" ++ tag))).length) := by
  unfold extractLayoutStructure
  dsimp only
  by_cases h : (regionTags.filter (fun tag => includes html ("<" ++ tag))).length > 2
  · rw [if_pos h]
    exact ⟨by decide, by simp [h]⟩
  · rw [if_neg h]
    exact ⟨by decide, by simp [h]⟩
